import Mathlib

/-!
# redistorage: a facade over a remote key-value store

Shallow embedding of `redis_storage.go` (package `redistorage`).

* Go strings and byte slices are byte sequences (`List Nat`, one entry per byte).
* A Go result pair `(value, error)` is a Lean pair whose second component is
  `Option GoError` (`none` is the nil error).
* The world outside the facade (remote keyspace, pool bookkeeping, the commands
  put on the wire) is an explicit state `World`; the behaviour of the remote end
  is a parameter `Server`, with `redisServer` the behaviour of a reachable store.
* The helpers of the driver (`redis.Bytes`, `redis.String`, `redis.Int`) and the
  wire format of `encoding/gob` for top-level scalars are modelled from the
  documentation of those libraries.
-/

set_option maxRecDepth 100000

namespace Redistorage

/-! ## Basic data -/

/-- A byte slice; every entry is one byte. -/
abbrev Bytes := List Nat

/-- A Go string: an immutable byte sequence. -/
abbrev GoString := List Nat

/-- The bytes of an ASCII string literal of the source. -/
def lit (s : String) : GoString := s.data.map Char.toNat

/-- Errors reported by the wire codec (`encoding/gob`). -/
inductive GobError
  | EOF
  | unexpectedEOF
  | badUint
  | typeDefinition
  | wrongType
  | nonZeroDelta
  | badStringLength
  | outOfRange
  | cannotHandleType
  | messageTooBig
  | badCount
  deriving DecidableEq, Repr

deriving instance DecidableEq for Except

/-- Go `error` values that the facade can return. -/
inductive GoError
  | ErrNil
  | ErrPoolExhausted
  | transport (msg : GoString)
  | redisError (msg : GoString)
  | errorsNew (msg : GoString)
  | unexpectedType
  | strconvSyntax
  | strconvRange
  | gob (e : GobError)
  deriving DecidableEq, Repr

/-- The facade object: only the key namespace is data, the pool and the
connections live in the `World`. The field is `prefix` in the source. -/
structure RedisStorage where
  pfx : GoString
  deriving DecidableEq, Repr

/-- The record handed to subscribers. The first field is `Type` in the
source. -/
structure Message where
  Typ : GoString
  Channel : GoString
  Data : GoString
  deriving DecidableEq, Repr

/-! ## The driver: commands, replies, reply helpers -/

/-- The four commands the storage facade puts on the wire. A nil byte slice
argument is `none`. -/
inductive Command
  | GET (key : GoString)
  | SET (key : GoString) (val : Option Bytes)
  | SETEX (key : GoString) (ttl : Int) (val : Option Bytes)
  | DEL (key : GoString)
  deriving DecidableEq, Repr

/-- The key argument of a command. -/
def Command.key : Command → GoString
  | .GET k => k
  | .SET k _ => k
  | .SETEX k _ _ => k
  | .DEL k => k

/-- The dynamic type of the `reply interface` returned by `conn.Do`. -/
inductive Reply
  | null
  | integer (n : Int)
  | status (s : GoString)
  | bulk (b : Bytes)
  | array
  | error (msg : GoString)
  deriving DecidableEq, Repr

/-- The pair `(reply, err)` returned by `conn.Do`. -/
structure DoResult where
  reply : Reply
  err : Option GoError
  deriving DecidableEq, Repr

/-- Helper `redis.Bytes(reply, err)`. -/
def redisBytes (r : DoResult) : Option Bytes × Option GoError :=
  match r.err with
  | some e => (none, some e)
  | none =>
    match r.reply with
    | .bulk b => (some b, none)
    | .status s => (some s, none)
    | .null => (none, some .ErrNil)
    | .error m => (none, some (.redisError m))
    | _ => (none, some .unexpectedType)

/-- Helper `redis.String(reply, err)`. -/
def redisString (r : DoResult) : GoString × Option GoError :=
  match r.err with
  | some e => ([], some e)
  | none =>
    match r.reply with
    | .bulk b => (b, none)
    | .status s => (s, none)
    | .null => ([], some .ErrNil)
    | .error m => ([], some (.redisError m))
    | _ => ([], some .unexpectedType)

/-- Decimal digits of `strconv.ParseUint(s, 10, _)` without the range cut:
`none` is a syntax error. -/
def parseDigits : List Nat → Nat → Option Nat
  | [], acc => some acc
  | c :: cs, acc => if 48 ≤ c ∧ c ≤ 57 then parseDigits cs (acc * 10 + (c - 48)) else none

/-- The call `strconv.ParseInt(s, 10, 0)` on a 64-bit platform. -/
def parseInt (s : GoString) : Int × Option GoError :=
  match s with
  | [] => (0, some .strconvSyntax)
  | c :: cs =>
    let neg := c = 45
    let body := if c = 43 ∨ c = 45 then cs else s
    match body with
    | [] => (0, some .strconvSyntax)
    | _ :: _ =>
      match parseDigits body 0 with
      | none => (0, some .strconvSyntax)
      | some un =>
        if ¬ neg ∧ un ≥ 2 ^ 63 then ((2 : Int) ^ 63 - 1, some .strconvRange)
        else if neg ∧ un > 2 ^ 63 then (-(2 : Int) ^ 63, some .strconvRange)
        else (if neg then -(un : Int) else (un : Int), none)

/-- Helper `redis.Int(reply, err)` on a 64-bit platform. -/
def redisInt (r : DoResult) : Int × Option GoError :=
  match r.err with
  | some e => (0, some e)
  | none =>
    match r.reply with
    | .integer n => (n, none)
    | .bulk b => parseInt b
    | .null => (0, some .ErrNil)
    | .error m => (0, some (.redisError m))
    | _ => (0, some .unexpectedType)

/-! ## The world outside the facade -/

/-- A stored entry: opaque bytes and an optional time to live in seconds. -/
structure Entry where
  val : Bytes
  ttl : Option Int
  deriving DecidableEq, Repr

/-- The remote keyspace, an association list read from the front. -/
abbrev Store := List (GoString × Entry)

/-- The entry stored under a key. -/
def Store.get : Store → GoString → Option Entry
  | [], _ => none
  | (k, e) :: rest, key => if k = key then some e else Store.get rest key

/-- Remove every entry of a key. -/
def Store.del (s : Store) (key : GoString) : Store :=
  s.filter (fun p => decide (p.1 ≠ key))

/-- Replace the entry of a key. -/
def Store.set (s : Store) (key : GoString) (e : Entry) : Store :=
  (key, e) :: Store.del s key

/-- What happens between the facade and the pool or the wire. -/
inductive Event
  | acquire
  | send (cmd : Command)
  | release
  deriving DecidableEq, Repr

/-- Everything outside the facade: the remote keyspace, the number of pool
connections handed out and not yet closed, and the history of pool and wire
events, oldest first. -/
structure World where
  store : Store
  active : Nat
  trace : List Event
  deriving DecidableEq, Repr

/-- The behaviour of the remote end for one command: a reply or an error, and
the keyspace afterwards. An unreachable endpoint answers every command by an
error (the pool hands out a connection whose `Do` returns the dial error). -/
abbrev Server := Command → Store → DoResult × Store

/-- The string `OK`. -/
def OK : GoString := lit "OK"

/-- A reachable store executing the commands as a key-value store does. -/
def redisServer : Server := fun cmd s =>
  match cmd with
  | .GET k =>
    match Store.get s k with
    | some e => (⟨.bulk e.val, none⟩, s)
    | none => (⟨.null, none⟩, s)
  | .SET k v => (⟨.status OK, none⟩, Store.set s k ⟨v.getD [], none⟩)
  | .SETEX k ttl v =>
    if ttl ≤ 0 then
      (⟨.null, some (.redisError (lit "ERR invalid expire time in setex"))⟩, s)
    else (⟨.status OK, none⟩, Store.set s k ⟨v.getD [], some ttl⟩)
  | .DEL k =>
    match Store.get s k with
    | some _ => (⟨.integer 1, none⟩, Store.del s k)
    | none => (⟨.integer 0, none⟩, s)

/-- An endpoint that cannot be dialled: every command fails with the dial
error and the keyspace is untouched. -/
def unreachableServer (e : GoError) : Server := fun _ s => (⟨.null, some e⟩, s)

/-- Method `(r *RedisStorage) connection()`: `r.pool.Get()`. -/
def connection (w : World) : World :=
  { w with active := w.active + 1, trace := w.trace ++ [Event.acquire] }

/-- Method `conn.Close()`: hand the connection back to the pool. -/
def connClose (w : World) : World :=
  { w with active := w.active - 1, trace := w.trace ++ [Event.release] }

/-- Method `conn.Do(cmd, args...)`: one round trip. -/
def connDo (srv : Server) (cmd : Command) (w : World) : DoResult × World :=
  let r := srv cmd w.store
  (r.1, { w with store := r.2, trace := w.trace ++ [Event.send cmd] })

/-! ## The codec: `encoding/gob` for top-level scalar values

A top-level scalar is sent as one message: the byte count of the body as an
unsigned integer, then the body, which is the type id as a signed integer, a
zero field delta (the value is framed as a struct of one field) and the value.
The platform has 64 bits: the encoder refuses, and the decoder rejects, a
message whose body has `tooBig` bytes or more. A message that defines a type
(negative type id) is outside the fragment: the encoder never writes one for
a scalar, and the decoder of the model stops there with `typeDefinition`. -/

/-- A value passed to `Set` as `val interface`: nothing, one of the five
supported scalars, or a channel, which the codec cannot transmit. A `float64`
is given by its IEEE-754 bits, and `int` has 64 bits. -/
inductive Value
  | nil
  | string (s : GoString)
  | int32 (n : Int)
  | int64 (n : Int)
  | int (n : Int)
  | float64 (bits : Nat)
  | chan
  deriving DecidableEq, Repr

/-- The value is in the range of its Go type. -/
def Value.WellTyped : Value → Prop
  | .nil => True
  | .string s => s.length < 2 ^ 63
  | .int32 n => -(2 : Int) ^ 31 ≤ n ∧ n < (2 : Int) ^ 31
  | .int64 n => -(2 : Int) ^ 63 ≤ n ∧ n < (2 : Int) ^ 63
  | .int n => -(2 : Int) ^ 63 ≤ n ∧ n < (2 : Int) ^ 63
  | .float64 b => b < 2 ^ 64
  | .chan => True

instance (v : Value) : Decidable v.WellTyped := by
  cases v <;> unfold Value.WellTyped <;> infer_instance

/-- The low `n` bytes of `x`, most significant first. -/
def beBytes : Nat → Nat → Bytes
  | 0, _ => []
  | n + 1, x => beBytes n (x / 256) ++ [x % 256]

/-- The number whose big-endian bytes are `bs`: the loop `x = x<<8 | b`. -/
def beValue (bs : Bytes) : Nat := bs.foldl (fun x b => x * 256 + b) 0

/-- The count `bits.LeadingZeros64(x) >> 3` of leading zero bytes of a
64-bit word. -/
def leadingZeroBytes (x : Nat) : Nat :=
  if x < 2 ^ 8 then 7
  else if x < 2 ^ 16 then 6
  else if x < 2 ^ 24 then 5
  else if x < 2 ^ 32 then 4
  else if x < 2 ^ 40 then 3
  else if x < 2 ^ 48 then 2
  else if x < 2 ^ 56 then 1
  else 0

/-- Method `encodeUint`: a value up to 127 is one byte; otherwise the negated
byte count in one byte, then the minimal big-endian bytes. -/
def encodeUint (x : Nat) : Bytes :=
  if x ≤ 127 then [x]
  else
    let bc := leadingZeroBytes x
    (248 + bc) :: (beBytes 8 x).drop bc

/-- Method `encodeInt`: the sign goes to bit 0, a negative value is
complemented. -/
def encodeInt (i : Int) : Bytes :=
  if i < 0 then encodeUint (2 * (-i - 1).toNat + 1) else encodeUint (2 * i.toNat)

/-- Method `decodeUint`: the inverse of `encodeUint`; returns the rest. -/
def decodeUint : Bytes → Except GobError (Nat × Bytes)
  | [] => .error .EOF
  | b :: rest =>
    if b ≤ 127 then .ok (b, rest)
    else if 256 - b > 8 then .error .badUint
    else if rest.length < 256 - b then .error .unexpectedEOF
    else .ok (beValue (rest.take (256 - b)), rest.drop (256 - b))

/-- Method `decodeInt`. -/
def decodeInt (bs : Bytes) : Except GobError (Int × Bytes) :=
  match decodeUint bs with
  | .error e => .error e
  | .ok (x, rest) =>
    if x % 2 = 1 then .ok (-((x / 2 : Nat) : Int) - 1, rest) else .ok (((x / 2 : Nat) : Int), rest)

/-- Function `bits.ReverseBytes64`. -/
def reverseBytes64 (u : Nat) : Nat := beValue (beBytes 8 u).reverse

/-- Wire type id of the signed integers. -/
def tInt : Int := 2

/-- Wire type id of the floats. -/
def tFloat : Int := 4

/-- Wire type id of strings. -/
def tString : Int := 6

/-- The constant `tooBig` on a 64-bit platform: `(1 << 30) << 3`. -/
def tooBig : Nat := 2 ^ 33

/-- The body of a message: the type id, the zero delta, the value. -/
def gobBody (id : Int) (payload : Bytes) : Bytes :=
  encodeInt id ++ encodeUint 0 ++ payload

/-- One message on the wire: the byte count of the body, then the body. -/
def gobMessage (id : Int) (payload : Bytes) : Bytes :=
  encodeUint (gobBody id payload).length ++ gobBody id payload

/-- Method `writeMessage` after the body is built: a body of `tooBig` bytes or
more is an error and nothing is written; otherwise the message is written. -/
def gobSend (id : Int) (payload : Bytes) : Bytes × Option GoError :=
  if (gobBody id payload).length ≥ tooBig then ([], some (.gob .messageTooBig))
  else (gobMessage id payload, none)

/-- The call `enc.Encode(val)` on a fresh encoder: the bytes written to the
buffer and the error returned. A nil value and a channel are refused before
anything is written. -/
def gobEncode : Value → Bytes × Option GoError
  | .nil => ([], some (.gob .cannotHandleType))
  | .string s => gobSend tString (encodeUint s.length ++ s)
  | .int32 n => gobSend tInt (encodeInt n)
  | .int64 n => gobSend tInt (encodeInt n)
  | .int n => gobSend tInt (encodeInt n)
  | .float64 b => gobSend tFloat (encodeUint (reverseBytes64 b))
  | .chan => ([], some (.gob .cannotHandleType))

/-- The start of `dec.Decode(result)` on a fresh decoder over `input`: read
the byte count, which must be below `tooBig`, and the message, its type id,
check that the id is the wire type of the local type, and read the field
delta. Returns the bytes of the value. -/
def decodeHeader (wire : Int) (input : Bytes) : Except GobError Bytes :=
  match decodeUint input with
  | .error e => .error e
  | .ok (nbytes, rest) =>
    if nbytes ≥ tooBig then .error .badCount
    else if rest.length < nbytes then .error .unexpectedEOF
    else
      match decodeInt (rest.take nbytes) with
      | .error e => .error e
      | .ok (id, buf) =>
        if id < 0 then .error .typeDefinition
        else if id ≠ wire then .error .wrongType
        else
          match decodeUint buf with
          | .error e => .error e
          | .ok (delta, buf) =>
            if delta ≠ 0 then .error .nonZeroDelta else .ok buf

/-- Decode into a `*string`: the length must fit the buffer and be below
`tooBig`. -/
def gobDecodeString (input : Bytes) : Except GobError GoString :=
  match decodeHeader tString input with
  | .error e => .error e
  | .ok buf =>
    match decodeUint buf with
    | .error e => .error e
    | .ok (n, buf) =>
      if buf.length < n ∨ tooBig ≤ n then .error .badStringLength else .ok (buf.take n)

/-- Decode into a `*int32`: the value must fit 32 bits. -/
def gobDecodeInt32 (input : Bytes) : Except GobError Int :=
  match decodeHeader tInt input with
  | .error e => .error e
  | .ok buf =>
    match decodeInt buf with
    | .error e => .error e
    | .ok (v, _) =>
      if v < -(2 : Int) ^ 31 ∨ (2 : Int) ^ 31 - 1 < v then .error .outOfRange else .ok v

/-- Decode into a `*int64`, and into a `*int` of 64 bits. -/
def gobDecodeInt64 (input : Bytes) : Except GobError Int :=
  match decodeHeader tInt input with
  | .error e => .error e
  | .ok buf =>
    match decodeInt buf with
    | .error e => .error e
    | .ok (v, _) => .ok v

/-- Decode into a `*float64`; the result is the bit pattern. -/
def gobDecodeFloat64 (input : Bytes) : Except GobError Nat :=
  match decodeHeader tFloat input with
  | .error e => .error e
  | .ok buf =>
    match decodeUint buf with
    | .error e => .error e
    | .ok (u, _) => .ok (reverseBytes64 u)

/-! ## The storage facade -/

/-- Get an item from Redis. -/
def Get (srv : Server) (rs : RedisStorage) (key : GoString) (w : World) :
    (Option Bytes × Option GoError) × World :=
  let conn := connection w
  let r := connDo srv (.GET (rs.pfx ++ key)) conn
  let res := redisBytes r.1
  let out : Option Bytes × Option GoError :=
    if res.2 = some .ErrNil then (none, some .ErrNil)
    else if res.2 ≠ none then (none, res.2)
    else (res.1, none)
  (out, connClose r.2)

/-- Get string value from cached item. -/
def GetString (srv : Server) (rs : RedisStorage) (key : GoString) (w : World) :
    (GoString × Option GoError) × World :=
  let r := Get srv rs key w
  match r.1.2 with
  | some err => (([], some err), r.2)
  | none =>
    match gobDecodeString (r.1.1.getD []) with
    | .error e => (([], some (.gob e)), r.2)
    | .ok result => ((result, none), r.2)

/-- Get int32 value from cached item. -/
def GetInt32 (srv : Server) (rs : RedisStorage) (key : GoString) (w : World) :
    (Int × Option GoError) × World :=
  let r := Get srv rs key w
  match r.1.2 with
  | some err => ((0, some err), r.2)
  | none =>
    match gobDecodeInt32 (r.1.1.getD []) with
    | .error e => ((0, some (.gob e)), r.2)
    | .ok result => ((result, none), r.2)

/-- Get int64 value from cached item. -/
def GetInt64 (srv : Server) (rs : RedisStorage) (key : GoString) (w : World) :
    (Int × Option GoError) × World :=
  let r := Get srv rs key w
  match r.1.2 with
  | some err => ((0, some err), r.2)
  | none =>
    match gobDecodeInt64 (r.1.1.getD []) with
    | .error e => ((0, some (.gob e)), r.2)
    | .ok result => ((result, none), r.2)

/-- Get int value from cached item. -/
def GetInt (srv : Server) (rs : RedisStorage) (key : GoString) (w : World) :
    (Int × Option GoError) × World :=
  let r := Get srv rs key w
  match r.1.2 with
  | some err => ((0, some err), r.2)
  | none =>
    match gobDecodeInt64 (r.1.1.getD []) with
    | .error e => ((0, some (.gob e)), r.2)
    | .ok result => ((result, none), r.2)

/-- Get float64 value from cached item; the result is the bit pattern. -/
def GetFloat64 (srv : Server) (rs : RedisStorage) (key : GoString) (w : World) :
    (Nat × Option GoError) × World :=
  let r := Get srv rs key w
  match r.1.2 with
  | some err => ((0, some err), r.2)
  | none =>
    match gobDecodeFloat64 (r.1.1.getD []) with
    | .error e => ((0, some (.gob e)), r.2)
    | .ok result => ((result, none), r.2)

/-- The bytes `toStore` that `Set` and `Setex` pass to the command: the
contents of the buffer after `enc.Encode(val)`, whose error is dropped, or a
nil slice for a nil value. -/
def toStore (val : Value) : Option Bytes :=
  if val ≠ .nil then some (gobEncode val).1 else none

/-- Set an item on Redis. -/
def Set (srv : Server) (rs : RedisStorage) (key : GoString) (val : Value) (w : World) :
    Option GoError × World :=
  let conn := connection w
  let r := connDo srv (.SET (rs.pfx ++ key) (toStore val)) conn
  let res := redisString r.1
  let out : Option GoError :=
    if res.2 ≠ none then res.2
    else if res.1 ≠ OK then some (.errorsNew (lit "redis: SET call failed"))
    else none
  (out, connClose r.2)

/-! ### Durations

`time.Duration` is a count of nanoseconds. `Duration.Seconds` computes
`float64(sec) + float64(nsec)/1e9` in IEEE-754 binary64; a finite non-negative
binary64 number is kept exactly, as `mant * 2 ^ exp`, and every operation
rounds its exact result to the nearest number of 53 significant bits, ties to
even. Results here are zero or in the normal range, so subnormals and
overflow are left out. -/

/-- A finite non-negative binary64 number `mant * 2 ^ exp`. -/
structure F64 where
  mant : Nat
  exp : Int
  deriving DecidableEq, Repr

/-- Numerator of the number as a fraction. -/
def F64.num (x : F64) : Nat := if x.exp ≥ 0 then x.mant * 2 ^ x.exp.toNat else x.mant

/-- Denominator of the number as a fraction. -/
def F64.den (x : F64) : Nat := if x.exp ≥ 0 then 1 else 2 ^ (-x.exp).toNat

/-- Number of binary digits of `x`, for `x < 2 ^ fuel`. -/
def bitLen : Nat → Nat → Nat
  | 0, _ => 0
  | fuel + 1, x => if x = 0 then 0 else bitLen fuel (x / 2) + 1

/-- The fraction `p / q` divided by `2 ^ e`. -/
def scale2 (p q : Nat) (e : Int) : Nat × Nat :=
  if e ≥ 0 then (p, q * 2 ^ e.toNat) else (p * 2 ^ (-e).toNat, q)

/-- The integer nearest to `p / q`, ties to even. -/
def roundHalfEven (p q : Nat) : Nat :=
  let k := p / q
  let r := p % q
  if 2 * r < q then k
  else if 2 * r > q then k + 1
  else if k % 2 = 0 then k else k + 1

/-- Round the fraction `p / q` to binary64. -/
def roundF64 (p q : Nat) : F64 :=
  if p = 0 then ⟨0, 0⟩
  else
    let k0 : Int := (bitLen p p : Int) - (bitLen q q : Int)
    let k : Int := if (scale2 p q k0).1 ≥ (scale2 p q k0).2 then k0 else k0 - 1
    let e : Int := k - 52
    ⟨roundHalfEven (scale2 p q e).1 (scale2 p q e).2, e⟩

/-- Conversion `float64(n)` of a non-negative integer. -/
def F64.ofNat (n : Nat) : F64 := roundF64 n 1

/-- Sum `x + y`. -/
def F64.add (x y : F64) : F64 := roundF64 (x.num * y.den + y.num * x.den) (x.den * y.den)

/-- Quotient `x / y`. -/
def F64.div (x y : F64) : F64 := roundF64 (x.num * y.den) (x.den * y.num)

/-- Conversion `int64(x)`: the fraction is dropped. -/
def F64.trunc (x : F64) : Nat := x.num / x.den

/-- The constant `time.Second`, in nanoseconds. -/
def Second : Nat := 1000000000

/-- The magnitude of `d.Seconds()` for a duration of `n` nanoseconds in
magnitude: `sec := d / Second`, `nsec := d % Second`,
`float64(sec) + float64(nsec)/1e9`. -/
def secondsAbs (n : Nat) : F64 :=
  F64.add (F64.ofNat (n / Second)) (F64.div (F64.ofNat (n % Second)) (F64.ofNat 1000000000))

/-- The argument `int64(duration.Seconds())`. Division, remainder and the
conversion all round toward zero and the float operations are symmetric in
the sign, so a negative duration gives the negated result of its magnitude. -/
def secondsInt64 (d : Int) : Int :=
  if d < 0 then -((F64.trunc (secondsAbs d.natAbs) : Nat) : Int)
  else ((F64.trunc (secondsAbs d.natAbs) : Nat) : Int)

/-- Set an item on Redis, with an expiration duration. -/
def Setex (srv : Server) (rs : RedisStorage) (key : GoString) (val : Value) (duration : Int)
    (w : World) : Option GoError × World :=
  let conn := connection w
  let r := connDo srv (.SETEX (rs.pfx ++ key) (secondsInt64 duration) (toStore val)) conn
  let res := redisString r.1
  let out : Option GoError :=
    if res.2 ≠ none then res.2
    else if res.1 ≠ OK then some (.errorsNew (lit "redis: SETEX call failed"))
    else none
  (out, connClose r.2)

/-- Remove an item from Redis. -/
def Delete (srv : Server) (rs : RedisStorage) (key : GoString) (w : World) :
    Option GoError × World :=
  let conn := connection w
  let r := connDo srv (.DEL (rs.pfx ++ key)) conn
  let res := redisInt r.1
  let out : Option GoError :=
    if res.2 ≠ none then res.2
    else if res.1 ≠ 1 then
      some (.errorsNew (lit "redis: DEL call failed for key (inc. prefix) " ++ rs.pfx ++ key))
    else none
  (out, connClose r.2)

/-! ## The subscription reader -/

/-- What `psc.Receive()` returns: a message, a pattern message, a
subscription notice, a pong, or an error. -/
inductive PubSubEvent
  | Message (channel : GoString) (data : Bytes)
  | PMessage (pattern : GoString) (channel : GoString) (data : Bytes)
  | Subscription (kind : GoString) (channel : GoString) (count : Int)
  | Pong (data : GoString)
  | error (e : GoError)
  deriving DecidableEq, Repr

/-- Method `Receive`, as a function of the event that `psc.Receive()`
delivers; `none` is the nil pointer. -/
def Receive (ev : PubSubEvent) : Option Message :=
  match ev with
  | .Message channel data => some ⟨lit "message", channel, data⟩
  | _ => none

/-! ## Concrete inputs -/

/-- The facade of the test suite: the key namespace is `rl_`. -/
def testStorage : RedisStorage := ⟨lit "rl_"⟩

/-- A world with an empty keyspace and no connection handed out. -/
def emptyWorld : World := ⟨[], 0, []⟩

/-- A world whose keyspace holds the encoding of the int 123 under `rl_test`. -/
def testWorld : World := ⟨[(lit "rl_test", ⟨[4, 4, 0, 255, 246], none⟩)], 0, []⟩

/-- The bits of the `float64` 1.5. -/
def float15 : Nat := 0x3ff8000000000000

/-- A string of `tooBig` bytes, each the letter `a`. -/
def bigString : GoString := List.replicate tooBig 97

/-! ## Lemmas on the codec -/

theorem beBytes_length (n x : Nat) : (beBytes n x).length = n := by
  induction n generalizing x with
  | zero => rfl
  | succ n ih => simp [beBytes, ih]

theorem beValue_snoc (l : Bytes) (b : Nat) : beValue (l ++ [b]) = beValue l * 256 + b := by
  simp [beValue, List.foldl_append]

theorem beValue_beBytes (n x : Nat) : beValue (beBytes n x) = x % 256 ^ n := by
  induction n generalizing x with
  | zero => simp [beBytes, beValue, Nat.mod_one]
  | succ n ih =>
    rw [beBytes, beValue_snoc, ih, pow_succ, Nat.mul_comm (256 ^ n) 256, Nat.mod_mul]
    omega

theorem beBytes_add (m n x : Nat) :
    beBytes (m + n) x = beBytes m (x / 256 ^ n) ++ beBytes n x := by
  induction n generalizing x with
  | zero => simp [beBytes]
  | succ n ih =>
    rw [← Nat.add_assoc, beBytes, ih, beBytes, List.append_assoc, Nat.div_div_eq_div_mul,
      pow_succ, Nat.mul_comm (256 ^ n) 256]

theorem beBytes_drop (m n x : Nat) : (beBytes (m + n) x).drop m = beBytes n x := by
  rw [beBytes_add]
  exact List.drop_left' (beBytes_length m _)

theorem beBytes_lt (n x b : Nat) (h : b ∈ beBytes n x) : b < 256 := by
  induction n generalizing x with
  | zero => simp [beBytes] at h
  | succ n ih =>
    simp only [beBytes, List.mem_append, List.mem_singleton] at h
    rcases h with h | h
    · exact ih _ h
    · omega

theorem beValue_lt (l : Bytes) (h : ∀ b ∈ l, b < 256) : beValue l < 256 ^ l.length := by
  induction l using List.reverseRecOn with
  | nil => simp [beValue]
  | append_singleton l b ih =>
    have hb : b < 256 := h b (by simp)
    have hl := ih (fun c hc => h c (by simp [hc]))
    rw [beValue_snoc, List.length_append, List.length_singleton, pow_succ]
    omega

theorem beBytes_beValue (l : Bytes) (h : ∀ b ∈ l, b < 256) : beBytes l.length (beValue l) = l := by
  induction l using List.reverseRecOn with
  | nil => rfl
  | append_singleton l b ih =>
    have hb : b < 256 := h b (by simp)
    have hl := ih (fun c hc => h c (by simp [hc]))
    rw [beValue_snoc, List.length_append, List.length_singleton, beBytes]
    have h1 : (beValue l * 256 + b) / 256 = beValue l := by omega
    have h2 : (beValue l * 256 + b) % 256 = b := by omega
    rw [h1, h2, hl]

theorem reverseBytes64_lt (u : Nat) : reverseBytes64 u < 2 ^ 64 := by
  have h := beValue_lt (beBytes 8 u).reverse (fun b hb => beBytes_lt 8 u b (List.mem_reverse.mp hb))
  rw [List.length_reverse, beBytes_length] at h
  exact h

theorem reverseBytes64_involutive (u : Nat) (h : u < 2 ^ 64) :
    reverseBytes64 (reverseBytes64 u) = u := by
  have hb : ∀ b ∈ (beBytes 8 u).reverse, b < 256 :=
    fun b hb => beBytes_lt 8 u b (List.mem_reverse.mp hb)
  have hlen : (beBytes 8 u).reverse.length = 8 := by rw [List.length_reverse, beBytes_length]
  have h1 := beBytes_beValue (beBytes 8 u).reverse hb
  rw [hlen] at h1
  unfold reverseBytes64
  rw [h1, List.reverse_reverse, beValue_beBytes]
  exact Nat.mod_eq_of_lt h

theorem leadingZeroBytes_le (x : Nat) : leadingZeroBytes x ≤ 7 := by
  unfold leadingZeroBytes
  repeat' split
  all_goals omega

theorem lt_of_leadingZeroBytes (x : Nat) (h : x < 2 ^ 64) :
    x < 256 ^ (8 - leadingZeroBytes x) := by
  unfold leadingZeroBytes
  repeat' split
  all_goals norm_num at * 
  all_goals omega

theorem decodeUint_encodeUint (x : Nat) (rest : Bytes) (h : x < 2 ^ 64) :
    decodeUint (encodeUint x ++ rest) = .ok (x, rest) := by
  unfold encodeUint
  split
  · rename_i h1
    simp [decodeUint, h1]
  · rename_i h1
    have hle := leadingZeroBytes_le x
    have hlt := lt_of_leadingZeroBytes x h
    have hdrop : (beBytes 8 x).drop (leadingZeroBytes x) = beBytes (8 - leadingZeroBytes x) x := by
      have := beBytes_drop (leadingZeroBytes x) (8 - leadingZeroBytes x) x
      rwa [show leadingZeroBytes x + (8 - leadingZeroBytes x) = 8 by omega] at this
    simp only [hdrop, List.cons_append, decodeUint]
    have e1 : 256 - (248 + leadingZeroBytes x) = 8 - leadingZeroBytes x := by omega
    rw [if_neg (by omega), e1, if_neg (by omega), if_neg (by simp [beBytes_length])]
    rw [List.take_left' (beBytes_length _ _), List.drop_left' (beBytes_length _ _),
      beValue_beBytes, Nat.mod_eq_of_lt hlt]

theorem decodeInt_encodeInt (i : Int) (rest : Bytes)
    (h : -(2 : Int) ^ 63 ≤ i ∧ i < (2 : Int) ^ 63) :
    decodeInt (encodeInt i ++ rest) = .ok (i, rest) := by
  unfold encodeInt decodeInt
  by_cases hneg : i < 0
  · rw [if_pos hneg, decodeUint_encodeUint (2 * (-i - 1).toNat + 1) rest (by omega)]
    simp only
    rw [if_pos (by omega)]
    congr 2
    omega
  · rw [if_neg hneg, decodeUint_encodeUint (2 * i.toNat) rest (by omega)]
    simp only
    rw [if_neg (by omega)]
    congr 2
    omega


theorem decodeHeader_gobMessage (wire id : Int) (payload : Bytes)
    (hid : 0 ≤ id ∧ id < (2 : Int) ^ 63)
    (hlen : (gobBody id payload).length < tooBig) :
    decodeHeader wire (gobMessage id payload)
      = if id ≠ wire then .error .wrongType else .ok payload := by
  have htb : tooBig = 2 ^ 33 := rfl
  unfold decodeHeader gobMessage
  rw [decodeUint_encodeUint _ _ (by omega)]
  simp only
  rw [if_neg (by omega), if_neg (by omega), List.take_length]
  unfold gobBody
  rw [List.append_assoc, decodeInt_encodeInt id _ ⟨by omega, hid.2⟩]
  simp only
  rw [if_neg (by omega)]
  by_cases hw : id = wire
  · rw [if_neg (by simpa using hw), if_neg (by simpa using hw),
      decodeUint_encodeUint 0 payload (by norm_num)]
    simp
  · rw [if_pos hw, if_pos hw]

theorem encodeUint_length_le (x : Nat) : (encodeUint x).length ≤ 9 := by
  unfold encodeUint
  split
  · simp
  · simp only [List.length_cons, List.length_drop, beBytes_length]
    omega

theorem encodeInt_length_le (i : Int) : (encodeInt i).length ≤ 9 := by
  unfold encodeInt
  split <;> exact encodeUint_length_le _

/-! ## Lemmas on the keyspace -/

theorem Store.del_cons (k1 : GoString) (e1 : Entry) (s : Store) (k : GoString) :
    Store.del ((k1, e1) :: s) k
      = if k1 = k then Store.del s k else (k1, e1) :: Store.del s k := by
  by_cases h : k1 = k <;> simp [Store.del, List.filter_cons, h]

theorem Store.get_cons (k1 : GoString) (e1 : Entry) (s : Store) (k : GoString) :
    Store.get ((k1, e1) :: s) k = if k1 = k then some e1 else Store.get s k := rfl

theorem Store.get_del_self (s : Store) (k : GoString) : Store.get (Store.del s k) k = none := by
  induction s with
  | nil => rfl
  | cons p s ih =>
    obtain ⟨k1, e1⟩ := p
    rw [Store.del_cons]
    by_cases h : k1 = k
    · rw [if_pos h]; exact ih
    · rw [if_neg h, Store.get_cons, if_neg h]; exact ih

theorem Store.get_del_other (s : Store) (k k2 : GoString) (h2 : k2 ≠ k) :
    Store.get (Store.del s k) k2 = Store.get s k2 := by
  induction s with
  | nil => rfl
  | cons p s ih =>
    obtain ⟨k1, e1⟩ := p
    rw [Store.del_cons, Store.get_cons]
    by_cases h : k1 = k
    · have h3 : k1 ≠ k2 := fun h4 => h2 (h4 ▸ h)
      rw [if_pos h, if_neg h3]; exact ih
    · rw [if_neg h, Store.get_cons]
      by_cases h3 : k1 = k2
      · rw [if_pos h3, if_pos h3]
      · rw [if_neg h3, if_neg h3]; exact ih

theorem Store.get_set_self (s : Store) (k : GoString) (e : Entry) :
    Store.get (Store.set s k e) k = some e := by
  simp [Store.set, Store.get]

theorem Store.get_set_other (s : Store) (k k2 : GoString) (e : Entry) (h2 : k2 ≠ k) :
    Store.get (Store.set s k e) k2 = Store.get s k2 := by
  have h3 : k ≠ k2 := fun h => h2 h.symm
  simp only [Store.set, Store.get, h3, if_false]
  exact Store.get_del_other s k k2 h2

/-! ## Lemmas on the facade over a reachable store -/

theorem Get_redisServer (rs : RedisStorage) (key : GoString) (w : World) :
    (Get redisServer rs key w).1 =
      (match Store.get w.store (rs.pfx ++ key) with
        | some e => (some e.val, none)
        | none => (none, some .ErrNil))
    ∧ (Get redisServer rs key w).2.store = w.store := by
  unfold Get connDo connection connClose redisServer
  cases h : Store.get w.store (rs.pfx ++ key) <;> simp [h, redisBytes]

theorem Set_redisServer (rs : RedisStorage) (key : GoString) (val : Value) (w : World) :
    (Set redisServer rs key val w).1 = none
    ∧ (Set redisServer rs key val w).2.store
        = Store.set w.store (rs.pfx ++ key) ⟨(toStore val).getD [], none⟩ := by
  unfold Set connDo connection connClose redisServer
  simp [redisString]

theorem Get_after_Set (rs : RedisStorage) (key : GoString) (val : Value) (w : World) :
    (Get redisServer rs key (Set redisServer rs key val w).2).1
      = (some ((toStore val).getD []), none) := by
  rw [(Get_redisServer rs key _).1, (Set_redisServer rs key val w).2, Store.get_set_self]


/-! ## The codec on the encodings of scalars -/

theorem gobSend_ok (id : Int) (payload : Bytes) (h : (gobBody id payload).length < tooBig) :
    gobSend id payload = (gobMessage id payload, none) := by
  unfold gobSend
  rw [if_neg (by omega)]

theorem gobSend_tooBig (id : Int) (payload : Bytes) (h : tooBig ≤ (gobBody id payload).length) :
    gobSend id payload = ([], some (.gob .messageTooBig)) := by
  unfold gobSend
  rw [if_pos h]

theorem gobBody_small (id : Int) (payload : Bytes) (hp : payload.length ≤ 9) :
    (gobBody id payload).length < tooBig := by
  have htb : tooBig = 2 ^ 33 := rfl
  have h1 := encodeInt_length_le id
  have h2 := encodeUint_length_le 0
  simp only [gobBody, List.length_append]
  omega

theorem gobBody_string_length (s : GoString) :
    s.length ≤ (gobBody tString (encodeUint s.length ++ s)).length := by
  simp only [gobBody, List.length_append]
  omega

theorem decodeHeader_scalar (wire id : Int) (payload : Bytes)
    (hid : id = tInt ∨ id = tFloat ∨ id = tString)
    (hb : (gobBody id payload).length < tooBig) :
    decodeHeader wire (gobMessage id payload)
      = if id ≠ wire then .error .wrongType else .ok payload := by
  apply decodeHeader_gobMessage _ _ _ _ hb
  rcases hid with h | h | h <;> subst h <;> simp [tInt, tFloat, tString]

theorem gobDecodeString_string (s : GoString)
    (hb : (gobBody tString (encodeUint s.length ++ s)).length < tooBig) :
    gobDecodeString (gobMessage tString (encodeUint s.length ++ s)) = .ok s := by
  have htb : tooBig = 2 ^ 33 := rfl
  have hs := gobBody_string_length s
  simp only [gobDecodeString]
  rw [decodeHeader_scalar tString tString _ (Or.inr (Or.inr rfl)) hb, if_neg (by simp)]
  simp only
  rw [decodeUint_encodeUint _ _ (by omega)]
  simp only
  rw [if_neg (by omega), List.take_length]

theorem gobDecodeString_wrong (id : Int) (payload : Bytes)
    (hid : id = tInt ∨ id = tFloat) (hb : (gobBody id payload).length < tooBig) :
    gobDecodeString (gobMessage id payload) = .error .wrongType := by
  have hne : id ≠ tString := by rcases hid with h | h <;> subst h <;> decide
  simp only [gobDecodeString]
  rw [decodeHeader_scalar tString id _ (by tauto) hb, if_pos hne]

theorem gobDecodeInt64_int (n : Int) (h : -(2 : Int) ^ 63 ≤ n ∧ n < (2 : Int) ^ 63) :
    gobDecodeInt64 (gobMessage tInt (encodeInt n)) = .ok n := by
  have hb := gobBody_small tInt (encodeInt n) (encodeInt_length_le n)
  simp only [gobDecodeInt64]
  rw [decodeHeader_scalar tInt tInt _ (Or.inl rfl) hb, if_neg (by simp)]
  simp only
  have := decodeInt_encodeInt n [] h
  rw [List.append_nil] at this
  rw [this]

theorem gobDecodeInt64_wrong (id : Int) (payload : Bytes)
    (hid : id = tString ∨ id = tFloat) (hb : (gobBody id payload).length < tooBig) :
    gobDecodeInt64 (gobMessage id payload) = .error .wrongType := by
  have hne : id ≠ tInt := by rcases hid with h | h <;> subst h <;> decide
  simp only [gobDecodeInt64]
  rw [decodeHeader_scalar tInt id _ (by tauto) hb, if_pos hne]

theorem gobDecodeInt32_int (n : Int) (h : -(2 : Int) ^ 63 ≤ n ∧ n < (2 : Int) ^ 63) :
    gobDecodeInt32 (gobMessage tInt (encodeInt n))
      = if n < -(2 : Int) ^ 31 ∨ (2 : Int) ^ 31 - 1 < n then .error .outOfRange else .ok n := by
  have hb := gobBody_small tInt (encodeInt n) (encodeInt_length_le n)
  simp only [gobDecodeInt32]
  rw [decodeHeader_scalar tInt tInt _ (Or.inl rfl) hb, if_neg (by simp)]
  simp only
  have := decodeInt_encodeInt n [] h
  rw [List.append_nil] at this
  rw [this]

theorem gobDecodeInt32_wrong (id : Int) (payload : Bytes)
    (hid : id = tString ∨ id = tFloat) (hb : (gobBody id payload).length < tooBig) :
    gobDecodeInt32 (gobMessage id payload) = .error .wrongType := by
  have hne : id ≠ tInt := by rcases hid with h | h <;> subst h <;> decide
  simp only [gobDecodeInt32]
  rw [decodeHeader_scalar tInt id _ (by tauto) hb, if_pos hne]

theorem gobDecodeFloat64_float (b : Nat) (h : b < 2 ^ 64) :
    gobDecodeFloat64 (gobMessage tFloat (encodeUint (reverseBytes64 b))) = .ok b := by
  have hb := gobBody_small tFloat _ (encodeUint_length_le (reverseBytes64 b))
  simp only [gobDecodeFloat64]
  rw [decodeHeader_scalar tFloat tFloat _ (Or.inr (Or.inl rfl)) hb, if_neg (by simp)]
  simp only
  have := decodeUint_encodeUint (reverseBytes64 b) [] (reverseBytes64_lt b)
  rw [List.append_nil] at this
  rw [this]
  simp only
  rw [reverseBytes64_involutive b h]

theorem gobDecodeFloat64_wrong (id : Int) (payload : Bytes)
    (hid : id = tString ∨ id = tInt) (hb : (gobBody id payload).length < tooBig) :
    gobDecodeFloat64 (gobMessage id payload) = .error .wrongType := by
  have hne : id ≠ tFloat := by rcases hid with h | h <;> subst h <;> decide
  simp only [gobDecodeFloat64]
  rw [decodeHeader_scalar tFloat id _ (by tauto) hb, if_pos hne]

/-! ## What `Set` stores for each scalar -/

theorem toStore_int (v : Value) (n : Int) (hn : v = .int32 n ∨ v = .int64 n ∨ v = .int n) :
    (toStore v).getD [] = gobMessage tInt (encodeInt n) := by
  have hb := gobBody_small tInt (encodeInt n) (encodeInt_length_le n)
  rcases hn with h | h | h <;> subst h <;> simp [toStore, gobEncode, gobSend_ok _ _ hb]

theorem toStore_float64 (b : Nat) :
    (toStore (.float64 b)).getD [] = gobMessage tFloat (encodeUint (reverseBytes64 b)) := by
  have hb := gobBody_small tFloat _ (encodeUint_length_le (reverseBytes64 b))
  simp [toStore, gobEncode, gobSend_ok _ _ hb]

theorem toStore_string (s : GoString)
    (hb : (gobBody tString (encodeUint s.length ++ s)).length < tooBig) :
    (toStore (.string s)).getD [] = gobMessage tString (encodeUint s.length ++ s) := by
  simp [toStore, gobEncode, gobSend_ok _ _ hb]

theorem toStore_string_tooBig (s : GoString)
    (hb : tooBig ≤ (gobBody tString (encodeUint s.length ++ s)).length) :
    (toStore (.string s)).getD [] = [] := by
  simp [toStore, gobEncode, gobSend_tooBig _ _ hb]

theorem gobEncode_string_ok_iff (s : GoString) :
    (gobEncode (.string s)).2 = none
      ↔ (gobBody tString (encodeUint s.length ++ s)).length < tooBig := by
  by_cases hb : (gobBody tString (encodeUint s.length ++ s)).length < tooBig
  · simp [gobEncode, gobSend_ok _ _ hb, hb]
  · simp [gobEncode, gobSend_tooBig _ _ (Nat.le_of_not_lt hb), hb]

/-! ## The typed getters after a `Set` on a reachable store -/

theorem GetString_after_Set (rs : RedisStorage) (key : GoString) (val : Value) (w : World) :
    (GetString redisServer rs key (Set redisServer rs key val w).2).1
      = (match gobDecodeString ((toStore val).getD []) with
          | .error e => ([], some (.gob e))
          | .ok result => (result, none)) := by
  have h := Get_after_Set rs key val w
  unfold GetString
  simp only [h, Option.getD_some]
  generalize gobDecodeString ((toStore val).getD []) = d
  cases d <;> rfl

theorem GetInt32_after_Set (rs : RedisStorage) (key : GoString) (val : Value) (w : World) :
    (GetInt32 redisServer rs key (Set redisServer rs key val w).2).1
      = (match gobDecodeInt32 ((toStore val).getD []) with
          | .error e => (0, some (.gob e))
          | .ok result => (result, none)) := by
  have h := Get_after_Set rs key val w
  unfold GetInt32
  simp only [h, Option.getD_some]
  generalize gobDecodeInt32 ((toStore val).getD []) = d
  cases d <;> rfl

theorem GetInt64_after_Set (rs : RedisStorage) (key : GoString) (val : Value) (w : World) :
    (GetInt64 redisServer rs key (Set redisServer rs key val w).2).1
      = (match gobDecodeInt64 ((toStore val).getD []) with
          | .error e => (0, some (.gob e))
          | .ok result => (result, none)) := by
  have h := Get_after_Set rs key val w
  unfold GetInt64
  simp only [h, Option.getD_some]
  generalize gobDecodeInt64 ((toStore val).getD []) = d
  cases d <;> rfl

theorem GetInt_after_Set (rs : RedisStorage) (key : GoString) (val : Value) (w : World) :
    (GetInt redisServer rs key (Set redisServer rs key val w).2).1
      = (match gobDecodeInt64 ((toStore val).getD []) with
          | .error e => (0, some (.gob e))
          | .ok result => (result, none)) := by
  have h := Get_after_Set rs key val w
  unfold GetInt
  simp only [h, Option.getD_some]
  generalize gobDecodeInt64 ((toStore val).getD []) = d
  cases d <;> rfl

theorem GetFloat64_after_Set (rs : RedisStorage) (key : GoString) (val : Value) (w : World) :
    (GetFloat64 redisServer rs key (Set redisServer rs key val w).2).1
      = (match gobDecodeFloat64 ((toStore val).getD []) with
          | .error e => (0, some (.gob e))
          | .ok result => (result, none)) := by
  have h := Get_after_Set rs key val w
  unfold GetFloat64
  simp only [h, Option.getD_some]
  generalize gobDecodeFloat64 ((toStore val).getD []) = d
  cases d <;> rfl


/-! ## The claims -/

/-- Round trip below the limit of the codec, on a reachable store: for each
of the five supported scalar types, every key and every value of the type that
the codec encodes, the typed getter issued after `Set(k, v)` returns exactly
`v` and no error (a `float64` is compared by its bits). Integers and floats
are always encoded; a string is encoded when its message stays below
`tooBig`. -/
theorem roundtrip_of_encoded (rs : RedisStorage) (key : GoString) (w : World) :
    (∀ s : GoString, (gobEncode (.string s)).2 = none →
      (GetString redisServer rs key (Set redisServer rs key (.string s) w).2).1 = (s, none)) ∧
    (∀ n : Int, (Value.int32 n).WellTyped →
      (GetInt32 redisServer rs key (Set redisServer rs key (.int32 n) w).2).1 = (n, none)) ∧
    (∀ n : Int, (Value.int64 n).WellTyped →
      (GetInt64 redisServer rs key (Set redisServer rs key (.int64 n) w).2).1 = (n, none)) ∧
    (∀ n : Int, (Value.int n).WellTyped →
      (GetInt redisServer rs key (Set redisServer rs key (.int n) w).2).1 = (n, none)) ∧
    (∀ b : Nat, (Value.float64 b).WellTyped →
      (GetFloat64 redisServer rs key (Set redisServer rs key (.float64 b) w).2).1 = (b, none)) := by
  refine ⟨?_, ?_, ?_, ?_, ?_⟩
  · intro s hs
    have hb := (gobEncode_string_ok_iff s).mp hs
    rw [GetString_after_Set, toStore_string s hb, gobDecodeString_string s hb]
  · intro n hn
    have hn2 : -(2 : Int) ^ 31 ≤ n ∧ n < (2 : Int) ^ 31 := hn
    rw [GetInt32_after_Set, toStore_int _ n (Or.inl rfl),
      gobDecodeInt32_int n ⟨by omega, by omega⟩, if_neg (by omega)]
  · intro n hn
    rw [GetInt64_after_Set, toStore_int _ n (Or.inr (Or.inl rfl)), gobDecodeInt64_int n hn]
  · intro n hn
    rw [GetInt_after_Set, toStore_int _ n (Or.inr (Or.inr rfl)), gobDecodeInt64_int n hn]
  · intro b hb
    rw [GetFloat64_after_Set, toStore_float64, gobDecodeFloat64_float b hb]

/-- The values of the test suite go round: the string `123`, the integer 123
at each integer type, and the float 1.5. -/
theorem roundtrip_of_test_values :
    (GetString redisServer testStorage (lit "test")
        (Set redisServer testStorage (lit "test") (.string (lit "123")) emptyWorld).2).1
      = (lit "123", none) ∧
    (GetInt32 redisServer testStorage (lit "test")
        (Set redisServer testStorage (lit "test") (.int32 123) emptyWorld).2).1 = (123, none) ∧
    (GetInt64 redisServer testStorage (lit "test")
        (Set redisServer testStorage (lit "test") (.int64 123) emptyWorld).2).1 = (123, none) ∧
    (GetInt redisServer testStorage (lit "test")
        (Set redisServer testStorage (lit "test") (.int 123) emptyWorld).2).1 = (123, none) ∧
    (GetFloat64 redisServer testStorage (lit "test")
        (Set redisServer testStorage (lit "test") (.float64 float15) emptyWorld).2).1
      = (float15, none) :=
  have h := roundtrip_of_encoded testStorage (lit "test") emptyWorld
  ⟨h.1 (lit "123") (by decide), h.2.1 123 (by decide), h.2.2.1 123 (by decide),
   h.2.2.2.1 123 (by decide), h.2.2.2.2 float15 (by decide)⟩

theorem bigString_length : bigString.length = tooBig := List.length_replicate _ _

theorem bigString_body :
    tooBig ≤ (gobBody tString (encodeUint bigString.length ++ bigString)).length := by
  have h := gobBody_string_length bigString
  rw [bigString_length] at h
  rw [bigString_length]
  exact h

/-- C1 fails on the code: `bigString` is a string value of `tooBig` bytes; the
codec refuses its message and writes nothing, `Set` drops that error, sends
the empty buffer and returns nil on a reachable store, and the `GetString`
issued next returns the empty string with the decode error `EOF` instead of
the value. -/
theorem roundtrip_lost_over_limit :
    (Value.string bigString).WellTyped ∧
    gobEncode (.string bigString) = ([], some (.gob .messageTooBig)) ∧
    (Set redisServer testStorage (lit "test") (.string bigString) emptyWorld).1 = none ∧
    (GetString redisServer testStorage (lit "test")
        (Set redisServer testStorage (lit "test") (.string bigString) emptyWorld).2).1
      = ([], some (.gob .EOF)) := by
  refine ⟨?_, ?_, ?_, ?_⟩
  · show bigString.length < 2 ^ 63
    rw [bigString_length]
    have htb : tooBig = 2 ^ 33 := rfl
    omega
  · show gobSend tString (encodeUint bigString.length ++ bigString) = _
    exact gobSend_tooBig _ _ bigString_body
  · exact (Set_redisServer _ _ _ _).1
  · rw [GetString_after_Set, toStore_string_tooBig bigString bigString_body]
    rfl

/-- C2. Strict delete on a reachable store: when no entry exists under
`prefix+k`, `Delete(k)` returns an error and the keyspace is unchanged; when
an entry exists, `Delete(k)` returns no error and the `Get(k)` issued next
returns nil data with `ErrNil`. -/
theorem delete_strict (rs : RedisStorage) (key : GoString) (w : World) :
    (Store.get w.store (rs.pfx ++ key) = none →
      (Delete redisServer rs key w).1 ≠ none ∧ (Delete redisServer rs key w).2.store = w.store) ∧
    (Store.get w.store (rs.pfx ++ key) ≠ none →
      (Delete redisServer rs key w).1 = none ∧
      (Get redisServer rs key (Delete redisServer rs key w).2).1 = (none, some .ErrNil)) := by
  constructor
  · intro h
    simp [Delete, connDo, connection, connClose, redisServer, h, redisInt]
  · intro h
    obtain ⟨e, he⟩ := Option.ne_none_iff_exists'.mp h
    have hstore : (Delete redisServer rs key w).2.store = Store.del w.store (rs.pfx ++ key) := by
      simp [Delete, connDo, connection, connClose, redisServer, he]
    constructor
    · simp [Delete, connDo, connection, connClose, redisServer, he, redisInt]
    · rw [(Get_redisServer rs key _).1, hstore, Store.get_del_self]

/-- Witness of C2: deleting `test` twice from a keyspace that holds it. -/
theorem delete_strict_witness :
    ((Delete redisServer testStorage (lit "test") testWorld).1 = none ∧
      (Get redisServer testStorage (lit "test")
        (Delete redisServer testStorage (lit "test") testWorld).2).1 = (none, some .ErrNil)) ∧
    ((Delete redisServer testStorage (lit "test") emptyWorld).1 ≠ none ∧
      (Delete redisServer testStorage (lit "test") emptyWorld).2.store = emptyWorld.store) :=
  ⟨(delete_strict testStorage (lit "test") testWorld).2 (by decide),
   (delete_strict testStorage (lit "test") emptyWorld).1 (by decide)⟩

/-- C3. Missing key: on a reachable store with no entry under `prefix+k`,
`Get(k)` returns nil data and exactly the error `ErrNil`; and whatever the
remote end does, for every key and world, `Get` returns data only with a nil
error. -/
theorem get_missing (rs : RedisStorage) (key : GoString) (w : World)
    (h : Store.get w.store (rs.pfx ++ key) = none) :
    (Get redisServer rs key w).1 = (none, some .ErrNil) ∧
    ∀ (srv : Server) (key2 : GoString) (w2 : World),
      (Get srv rs key2 w2).1.1 ≠ none → (Get srv rs key2 w2).1.2 = none := by
  constructor
  · rw [(Get_redisServer rs key w).1, h]
  · intro srv key2 w2
    simp only [Get]
    split
    · simp
    · split <;> simp

/-- Witness of C3: the key `absent` in the keyspace of `testWorld`. -/
theorem get_missing_witness :
    (Get redisServer testStorage (lit "absent") testWorld).1 = (none, some .ErrNil) ∧
    ∀ (srv : Server) (key2 : GoString) (w2 : World),
      (Get srv testStorage key2 w2).1.1 ≠ none → (Get srv testStorage key2 w2).1.2 = none :=
  get_missing testStorage (lit "absent") testWorld (by decide)


/-- C4. Prefixing: whatever the remote end does, `Get`, `Set`, `Setex` and
`Delete` each issue a single command, and its key argument is exactly
`prefix ++ k`, which starts with the prefix; on a reachable store the entry
under every other key is left unchanged by each of the four. -/
theorem prefixing (srv : Server) (rs : RedisStorage) (key : GoString) (val : Value)
    (duration : Int) (w : World) (k2 : GoString) (h : k2 ≠ rs.pfx ++ key) :
    ((∃ cmd, (Get srv rs key w).2.trace = w.trace ++ [.acquire, .send cmd, .release]
        ∧ cmd.key = rs.pfx ++ key) ∧
     (∃ cmd, (Set srv rs key val w).2.trace = w.trace ++ [.acquire, .send cmd, .release]
        ∧ cmd.key = rs.pfx ++ key) ∧
     (∃ cmd, (Setex srv rs key val duration w).2.trace
          = w.trace ++ [.acquire, .send cmd, .release]
        ∧ cmd.key = rs.pfx ++ key) ∧
     (∃ cmd, (Delete srv rs key w).2.trace = w.trace ++ [.acquire, .send cmd, .release]
        ∧ cmd.key = rs.pfx ++ key)) ∧
    rs.pfx <+: rs.pfx ++ key ∧
    (Store.get (Get redisServer rs key w).2.store k2 = Store.get w.store k2 ∧
     Store.get (Set redisServer rs key val w).2.store k2 = Store.get w.store k2 ∧
     Store.get (Setex redisServer rs key val duration w).2.store k2 = Store.get w.store k2 ∧
     Store.get (Delete redisServer rs key w).2.store k2 = Store.get w.store k2) := by
  refine ⟨⟨⟨.GET (rs.pfx ++ key), ?_, rfl⟩, ⟨.SET (rs.pfx ++ key) (toStore val), ?_, rfl⟩,
    ⟨.SETEX (rs.pfx ++ key) (secondsInt64 duration) (toStore val), ?_, rfl⟩,
    ⟨.DEL (rs.pfx ++ key), ?_, rfl⟩⟩, List.prefix_append _ _, ?_, ?_, ?_, ?_⟩
  · simp [Get, connDo, connection, connClose]
  · simp [Set, connDo, connection, connClose]
  · simp [Setex, connDo, connection, connClose]
  · simp [Delete, connDo, connection, connClose]
  · rw [(Get_redisServer rs key w).2]
  · rw [(Set_redisServer rs key val w).2, Store.get_set_other _ _ _ _ h]
  · have hs : (Setex redisServer rs key val duration w).2.store
        = if secondsInt64 duration ≤ 0 then w.store
          else Store.set w.store (rs.pfx ++ key) ⟨(toStore val).getD [], some (secondsInt64 duration)⟩ := by
      simp only [Setex, connDo, connection, connClose, redisServer]
      split <;> rfl
    rw [hs]
    split
    · rfl
    · exact Store.get_set_other _ _ _ _ h
  · have hs : (Delete redisServer rs key w).2.store
        = match Store.get w.store (rs.pfx ++ key) with
          | some _ => Store.del w.store (rs.pfx ++ key)
          | none => w.store := by
      simp only [Delete, connDo, connection, connClose, redisServer]
      split <;> rfl
    rw [hs]
    split
    · exact Store.get_del_other _ _ _ h
    · rfl

/-- Witness of C4: the operations on key `other` leave the entry under
`rl_test` as it is. -/
theorem prefixing_witness :
    Store.get (Delete redisServer testStorage (lit "other") testWorld).2.store (lit "rl_test")
      = Store.get testWorld.store (lit "rl_test") :=
  (prefixing redisServer testStorage (lit "other") (.int 1) 1000000000 testWorld (lit "rl_test")
    (by decide)).2.2.2.2.2

/-- C5 fails as stated: the int 123 written by `Set` is returned, without
error, by `GetInt32` and by `GetInt64` (the tests `TestInt32` and `TestInt64`
of the repository). -/
theorem int_read_by_GetInt32 :
    (GetInt32 redisServer testStorage (lit "test")
        (Set redisServer testStorage (lit "test") (.int 123) emptyWorld).2).1 = (123, none) ∧
    (GetInt64 redisServer testStorage (lit "test")
        (Set redisServer testStorage (lit "test") (.int 123) emptyWorld).2).1 = (123, none) := by
  decide

/-- C5, amended. On a reachable store: a string written by `Set` makes every
integer getter and `GetFloat64` fail with a decode error and return the zero
value (the error is the type mismatch, or `EOF` when the codec refused the
string and `Set` stored nothing); a `float64` makes `GetString` and every
integer getter fail with the type mismatch and return the zero value; an
integer of type int32, int64 or int makes `GetString` and `GetFloat64` fail
likewise, is returned unchanged by `GetInt64` and `GetInt`, and is returned
unchanged by `GetInt32` when it fits 32 bits, which fails with a decode error
otherwise. -/
theorem type_mismatch_decode (rs : RedisStorage) (key : GoString) (w : World)
    (v : Value) (hv : v.WellTyped) :
    (∀ s, v = .string s →
      (GetInt32 redisServer rs key (Set redisServer rs key v w).2).1
        = (0, some (.gob (if (gobEncode v).2 = none then .wrongType else .EOF))) ∧
      (GetInt64 redisServer rs key (Set redisServer rs key v w).2).1
        = (0, some (.gob (if (gobEncode v).2 = none then .wrongType else .EOF))) ∧
      (GetInt redisServer rs key (Set redisServer rs key v w).2).1
        = (0, some (.gob (if (gobEncode v).2 = none then .wrongType else .EOF))) ∧
      (GetFloat64 redisServer rs key (Set redisServer rs key v w).2).1
        = (0, some (.gob (if (gobEncode v).2 = none then .wrongType else .EOF)))) ∧
    (∀ b, v = .float64 b →
      (GetString redisServer rs key (Set redisServer rs key v w).2).1
        = ([], some (.gob .wrongType)) ∧
      (GetInt32 redisServer rs key (Set redisServer rs key v w).2).1
        = (0, some (.gob .wrongType)) ∧
      (GetInt64 redisServer rs key (Set redisServer rs key v w).2).1
        = (0, some (.gob .wrongType)) ∧
      (GetInt redisServer rs key (Set redisServer rs key v w).2).1
        = (0, some (.gob .wrongType))) ∧
    (∀ n, v = .int32 n ∨ v = .int64 n ∨ v = .int n →
      (GetString redisServer rs key (Set redisServer rs key v w).2).1
        = ([], some (.gob .wrongType)) ∧
      (GetFloat64 redisServer rs key (Set redisServer rs key v w).2).1
        = (0, some (.gob .wrongType)) ∧
      (GetInt64 redisServer rs key (Set redisServer rs key v w).2).1 = (n, none) ∧
      (GetInt redisServer rs key (Set redisServer rs key v w).2).1 = (n, none) ∧
      (GetInt32 redisServer rs key (Set redisServer rs key v w).2).1
        = if n < -(2 : Int) ^ 31 ∨ (2 : Int) ^ 31 - 1 < n then (0, some (.gob .outOfRange))
          else (n, none)) := by
  refine ⟨?_, ?_, ?_⟩
  · intro s hs
    subst hs
    rw [GetInt32_after_Set, GetInt64_after_Set, GetInt_after_Set, GetFloat64_after_Set]
    by_cases hb : (gobBody tString (encodeUint s.length ++ s)).length < tooBig
    · rw [if_pos ((gobEncode_string_ok_iff s).mpr hb), toStore_string s hb,
        gobDecodeInt32_wrong _ _ (Or.inl rfl) hb, gobDecodeInt64_wrong _ _ (Or.inl rfl) hb,
        gobDecodeFloat64_wrong _ _ (Or.inl rfl) hb]
      exact ⟨rfl, rfl, rfl, rfl⟩
    · rw [if_neg (fun h => hb ((gobEncode_string_ok_iff s).mp h)),
        toStore_string_tooBig s (Nat.le_of_not_lt hb)]
      exact ⟨rfl, rfl, rfl, rfl⟩
  · intro b hb
    subst hb
    have hp := gobBody_small tFloat _ (encodeUint_length_le (reverseBytes64 b))
    rw [GetString_after_Set, GetInt32_after_Set, GetInt64_after_Set, GetInt_after_Set,
      toStore_float64, gobDecodeInt32_wrong _ _ (Or.inr rfl) hp,
      gobDecodeInt64_wrong _ _ (Or.inr rfl) hp, gobDecodeString_wrong _ _ (Or.inr rfl) hp]
    exact ⟨rfl, rfl, rfl, rfl⟩
  · intro n hn
    have hp := gobBody_small tInt (encodeInt n) (encodeInt_length_le n)
    have e := toStore_int v n hn
    have hr : -(2 : Int) ^ 63 ≤ n ∧ n < (2 : Int) ^ 63 := by
      rcases hn with h | h | h <;> subst h
      · have h2 : -(2 : Int) ^ 31 ≤ n ∧ n < (2 : Int) ^ 31 := hv
        constructor <;> omega
      · exact hv
      · exact hv
    rw [GetString_after_Set, GetInt32_after_Set, GetInt64_after_Set, GetInt_after_Set,
      GetFloat64_after_Set, e, gobDecodeString_wrong _ _ (Or.inl rfl) hp,
      gobDecodeFloat64_wrong _ _ (Or.inr rfl) hp, gobDecodeInt64_int n hr,
      gobDecodeInt32_int n hr]
    refine ⟨rfl, rfl, rfl, rfl, ?_⟩
    by_cases hc : n < -(2 : Int) ^ 31 ∨ (2 : Int) ^ 31 - 1 < n
    · rw [if_pos hc, if_pos hc]
    · rw [if_neg hc, if_neg hc]

/-- Witness of C5, amended: the int 123 written by `Set` makes `GetString`
fail with a decode error. -/
theorem type_mismatch_decode_witness :
    (GetString redisServer testStorage (lit "test")
        (Set redisServer testStorage (lit "test") (.int 123) emptyWorld).2).1
      = ([], some (.gob .wrongType)) :=
  ((type_mismatch_decode testStorage (lit "test") emptyWorld (.int 123) (by decide)).2.2 123
    (Or.inr (Or.inr rfl))).1

theorem Set_out_none_iff (r : DoResult) :
    (if (redisString r).2 ≠ none then (redisString r).2
      else if (redisString r).1 ≠ OK then some (GoError.errorsNew (lit "redis: SET call failed"))
      else none) = none
    ↔ r.err = none ∧ (r.reply = .status OK ∨ r.reply = .bulk OK) := by
  obtain ⟨reply, err⟩ := r
  cases err with
  | some e => simp [redisString]
  | none => cases reply <;> simp [redisString]

/-- C6. Connection failure: whatever the remote end does, when the SET command
returns an error, `Set` returns that error; `Set` returns nil exactly when the
command returned no error and the reply is the string `OK` (as a status or as
a bulk string); against an endpoint that cannot be dialled `Set` returns the
dial error. -/
theorem set_connection_failure (srv : Server) (rs : RedisStorage) (key : GoString)
    (val : Value) (w : World) :
    (∀ e, (srv (.SET (rs.pfx ++ key) (toStore val)) w.store).1.err = some e →
      (Set srv rs key val w).1 = some e) ∧
    ((Set srv rs key val w).1 = none ↔
      (srv (.SET (rs.pfx ++ key) (toStore val)) w.store).1.err = none ∧
      ((srv (.SET (rs.pfx ++ key) (toStore val)) w.store).1.reply = .status OK ∨
       (srv (.SET (rs.pfx ++ key) (toStore val)) w.store).1.reply = .bulk OK)) ∧
    (∀ e, (Set (unreachableServer e) rs key val w).1 = some e) := by
  refine ⟨?_, ?_, ?_⟩
  · intro e he
    simp [Set, connDo, connection, connClose, redisString, he]
  · exact Set_out_none_iff _
  · intro e
    simp [Set, connDo, connection, connClose, redisString, unreachableServer]

/-- Witness of C6: the test `TestBadConnection`, a `Set` against an endpoint
whose dial fails. -/
theorem set_connection_failure_witness :
    (Set (unreachableServer (.transport (lit "dial tcp: no such host"))) testStorage
        (lit "test") (.int 123) emptyWorld).1
      = some (.transport (lit "dial tcp: no such host")) :=
  (set_connection_failure (unreachableServer (.transport (lit "dial tcp: no such host")))
    testStorage (lit "test") (.int 123) emptyWorld).1 _ rfl


/-- C7 fails on the code: the codec cannot encode a channel and writes
nothing, its error is dropped, and on a reachable store `Set` and `Setex`
still return nil and leave an empty entry under the key. -/
theorem encode_error_dropped :
    (gobEncode .chan).2 ≠ none ∧
    (Set redisServer testStorage (lit "test") .chan emptyWorld).1 = none ∧
    Store.get (Set redisServer testStorage (lit "test") .chan emptyWorld).2.store (lit "rl_test")
      = some ⟨[], none⟩ ∧
    (Setex redisServer testStorage (lit "test") .chan 1000000000 emptyWorld).1 = none ∧
    Store.get (Setex redisServer testStorage (lit "test") .chan 1000000000 emptyWorld).2.store
        (lit "rl_test")
      = some ⟨[], some 1⟩ := by
  decide

/-- C8. Scoped acquisition: whatever the remote end does, each call of `Get`,
`Set`, `Setex` and `Delete` adds to the history exactly one acquisition, then
one command, then one release, and leaves the number of connections handed out
by the pool as it was. -/
theorem scoped_acquisition (srv : Server) (rs : RedisStorage) (key : GoString) (val : Value)
    (duration : Int) (w : World) :
    ((Get srv rs key w).2.trace
        = w.trace ++ [.acquire, .send (.GET (rs.pfx ++ key)), .release] ∧
      (Get srv rs key w).2.active = w.active) ∧
    ((Set srv rs key val w).2.trace
        = w.trace ++ [.acquire, .send (.SET (rs.pfx ++ key) (toStore val)), .release] ∧
      (Set srv rs key val w).2.active = w.active) ∧
    ((Setex srv rs key val duration w).2.trace
        = w.trace ++ [.acquire,
            .send (.SETEX (rs.pfx ++ key) (secondsInt64 duration) (toStore val)), .release] ∧
      (Setex srv rs key val duration w).2.active = w.active) ∧
    ((Delete srv rs key w).2.trace
        = w.trace ++ [.acquire, .send (.DEL (rs.pfx ++ key)), .release] ∧
      (Delete srv rs key w).2.active = w.active) := by
  refine ⟨⟨?_, ?_⟩, ⟨?_, ?_⟩, ⟨?_, ?_⟩, ⟨?_, ?_⟩⟩ <;>
    simp [Get, Set, Setex, Delete, connDo, connection, connClose]

/-- C9. Receive mapping: `Receive` returns a message exactly when the event
delivered is of the message kind, and then the record has type `message`, the
channel of the event and its payload; every other event gives nil. -/
theorem receive_mapping (ev : PubSubEvent) :
    (Receive ev ≠ none ↔ ∃ channel data, ev = .Message channel data) ∧
    (∀ channel data, ev = .Message channel data →
      Receive ev = some ⟨lit "message", channel, data⟩) ∧
    (∀ pattern channel data, ev = .PMessage pattern channel data → Receive ev = none) ∧
    (∀ kind channel count, ev = .Subscription kind channel count → Receive ev = none) ∧
    (∀ data, ev = .Pong data → Receive ev = none) ∧
    (∀ e, ev = .error e → Receive ev = none) := by
  refine ⟨?_, ?_, ?_, ?_, ?_, ?_⟩
  · cases ev <;> simp [Receive]
  · rintro channel data rfl; rfl
  · rintro pattern channel data rfl; rfl
  · rintro kind channel count rfl; rfl
  · rintro data rfl; rfl
  · rintro e rfl; rfl

/-- Witness of C9: a message on channel `news` with payload `hi`. -/
theorem receive_mapping_witness :
    Receive (.Message (lit "news") (lit "hi")) = some ⟨lit "message", lit "news", lit "hi"⟩ :=
  (receive_mapping (.Message (lit "news") (lit "hi"))).2.1 _ _ rfl

/-- C10 fails on the code: the duration of 16777216.999999999 seconds has
16777216 whole seconds, and `Setex` sends the expiration 16777217, because
the seconds are computed in binary64 and rounded up before the fraction is
dropped. The durations of 1500ms and 999ms give 1 and 0, and the value bytes
are the bytes that `Set` sends. -/
theorem setex_ttl_rounded_up :
    (16777216999999999 : Int) / 1000000000 = 16777216 ∧
    (Setex redisServer testStorage (lit "test") (.int 123) 16777216999999999 emptyWorld).2.trace
      = [.acquire, .send (.SETEX (lit "rl_test") 16777217 (some [4, 4, 0, 255, 246])),
          .release] ∧
    (Set redisServer testStorage (lit "test") (.int 123) emptyWorld).2.trace
      = [.acquire, .send (.SET (lit "rl_test") (some [4, 4, 0, 255, 246])), .release] ∧
    secondsInt64 1500000000 = 1 ∧
    secondsInt64 999000000 = 0 := by
  decide

end Redistorage
